import Mathlib

/-!
Verification of the threshold-evaluation and time-windowed aggregation engine of
`bodylog.py` (streamlit_bodylog): a shallow embedding of the data model and of the
core operations (composite blood-pressure parsing, abnormality flagging, BMI
derivation, entry-store append/sort/delete, config loading, table querying),
with theorems settling the specification claims.
-/

set_option linter.unusedVariables false

/-- Numeric value of a decimal digit character. -/
def d2n (c : Char) : ℕ := c.toNat - 48

/-- Decimal digit test (ASCII `0`-`9`). -/
def isDig (c : Char) : Bool := 48 ≤ c.toNat && c.toNat ≤ 57

/-- Calendar date-time with second precision: the parse result of
`datetime.fromisoformat` on the canonical `YYYY-MM-DDTHH:MM:SS` strings that
`isoformat(timespec="seconds")` writes. -/
structure DateTime where
  y : ℕ
  mo : ℕ
  d : ℕ
  h : ℕ
  mi : ℕ
  s : ℕ
deriving DecidableEq, Repr

/-- Monotone key on valid date-times: chronological order is key order. -/
def DateTime.key (t : DateTime) : ℕ :=
  ((((t.y * 13 + t.mo) * 32 + t.d) * 24 + t.h) * 60 + t.mi) * 60 + t.s

/-- Gregorian leap-year rule, as `datetime` validates dates. -/
def isLeap (y : ℕ) : Bool := (y % 4 == 0 && y % 100 != 0) || y % 400 == 0

/-- Days in a month, as `datetime` validates dates. -/
def daysInMonth (y mo : ℕ) : ℕ :=
  if mo = 2 then (if isLeap y then 29 else 28)
  else if mo = 4 ∨ mo = 6 ∨ mo = 9 ∨ mo = 11 then 30 else 31

/-- Value of a two-digit group. -/
def dig2 (a b : Char) : ℕ := d2n a * 10 + d2n b

/-- Value of a four-digit group. -/
def dig4 (a b c d : Char) : ℕ := (dig2 a b * 10 + d2n c) * 10 + d2n d

/-- `datetime.fromisoformat` on the canonical 19-character `YYYY-MM-DDTHH:MM:SS`
layout, the only timestamp format the app ever writes; every other string is
treated as unparseable (`none` models the raised `ValueError`). -/
def parseTsL (l : List Char) : Option DateTime :=
  match l with
  | [y1, y2, y3, y4, c1, m1, m2, c2, d1, d2, c3, h1, h2, c4, n1, n2, c5, s1, s2] =>
    if isDig y1 && isDig y2 && isDig y3 && isDig y4 && c1 == '-' &&
        isDig m1 && isDig m2 && c2 == '-' && isDig d1 && isDig d2 && c3 == 'T' &&
        isDig h1 && isDig h2 && c4 == ':' && isDig n1 && isDig n2 && c5 == ':' &&
        isDig s1 && isDig s2 then
      if 1 ≤ dig4 y1 y2 y3 y4 && 1 ≤ dig2 m1 m2 && dig2 m1 m2 ≤ 12 &&
          1 ≤ dig2 d1 d2 && dig2 d1 d2 ≤ daysInMonth (dig4 y1 y2 y3 y4) (dig2 m1 m2) &&
          dig2 h1 h2 ≤ 23 && dig2 n1 n2 ≤ 59 && dig2 s1 s2 ≤ 59 then
        some ⟨dig4 y1 y2 y3 y4, dig2 m1 m2, dig2 d1 d2, dig2 h1 h2, dig2 n1 n2,
          dig2 s1 s2⟩
      else none
    else none
  | _ => none

/-- `datetime.fromisoformat(r["ts"])` on a stored timestamp string. -/
def parseTs (s : String) : Option DateTime := parseTsL s.data

/-- A stored field value: the Python scalars the JSON store can hold in a
metric field. -/
inductive Value where
  | int (n : ℤ)
  | float (q : ℚ)
  | str (s : String)
deriving DecidableEq, Repr

/-- `isinstance(v, (int, float))`, returning the numeric content when it holds. -/
def Value.toNum : Value → Option ℚ
  | .int n => some (n : ℚ)
  | .float q => some q
  | .str _ => none

/-- Python `str` on a float, modelled only to the extent the evaluator needs:
a decimal-style rendering that contains a `.` and never a `/`, so that
blood-pressure parsing of a numeric field fails exactly as it does on Python's
float representations. -/
def floatRepr (q : ℚ) : String :=
  toString q.num ++ "." ++ toString q.den

/-- Python `str(v)` as applied to a blood-pressure field value. -/
def pyStr : Value → String
  | .str s => s
  | .int n => toString n
  | .float q => floatRepr q

/-- The flat threshold mapping `CFG["thresholds"]`: every named numeric limit of
`DEFAULT_CONFIG["thresholds"]` (bodylog.py:20-28). -/
structure Thresholds where
  bp_sys_hi : ℚ
  bp_dia_hi : ℚ
  bp_sys_very : ℚ
  bp_dia_very : ℚ
  hr_lo : ℚ
  hr_hi : ℚ
  temp_hi : ℚ
  sugar_hi : ℚ
  sugar_very : ℚ
  sugar_lo : ℚ
  spo2_lo : ℚ
  rr_lo : ℚ
  rr_hi : ℚ
deriving DecidableEq, Repr

/-- `DEFAULT_CONFIG["thresholds"]` (bodylog.py:20-28); `38.5` is `77/2`. -/
def defaultThresholds : Thresholds :=
  ⟨140, 90, 180, 120, 50, 120, (77 : ℚ) / 2, 180, 240, 60, 92, 10, 24⟩

/-- `DEFAULT_CONFIG["metrics"]` (bodylog.py:19). -/
def defaultMetrics : List String := ["bp", "hr", "temp", "sugar"]

/-- One stored observation record: an element of `DB["entries"]`. Metric fields
are optional (absent key = not recorded); `ts` is always present on entries the
app writes. -/
structure Entry where
  id : Option String := none
  ts : String
  bp : Option Value := none
  hr : Option Value := none
  temp : Option Value := none
  sugar : Option Value := none
  spo2 : Option Value := none
  rr : Option Value := none
  weight : Option Value := none
  waist : Option Value := none
  bmi : Option Value := none
  memo : Option String := none
deriving DecidableEq, Repr

/-- Python `str.split("/")` on a character list. -/
def splitSlash : List Char → List (List Char)
  | [] => [[]]
  | c :: cs =>
    if c = '/' then [] :: splitSlash cs
    else
      match splitSlash cs with
      | t :: ts => (c :: t) :: ts
      | [] => [[c]]

/-- ASCII whitespace, as stripped by `str.strip` and by `int`. -/
def isSpaceC (c : Char) : Bool :=
  c == ' ' || c == '\t' || c == '\n' || c == '\r' || c.toNat == 11 || c.toNat == 12

/-- Python `str.strip()` (ASCII whitespace). -/
def stripWsL (l : List Char) : List Char :=
  ((l.dropWhile isSpaceC).reverse.dropWhile isSpaceC).reverse

/-- Tail of Python's integer-literal grammar: digits, with a single underscore
allowed only between two digits. -/
def digTail : List Char → Bool
  | [] => true
  | c :: cs =>
    if c = '_' then
      match cs with
      | c2 :: cs2 => isDig c2 && digTail cs2
      | [] => false
    else isDig c && digTail cs

/-- Nonempty digit body of a Python integer literal. -/
def digitsOk : List Char → Bool
  | [] => false
  | c :: cs => isDig c && digTail cs

/-- Numeric value of a digit/underscore literal body. -/
def natVal (l : List Char) : ℕ :=
  l.foldl (fun acc c => if c = '_' then acc else acc * 10 + d2n c) 0

/-- Python `int(str)` (ASCII): strip whitespace, optional sign, then a digit
body with underscores only between digits; `none` models the raised
`ValueError`. -/
def pyIntL (l : List Char) : Option ℤ :=
  match stripWsL l with
  | '+' :: rest => if digitsOk rest then some (natVal rest : ℤ) else none
  | '-' :: rest => if digitsOk rest then some (-(natVal rest : ℤ)) else none
  | t => if digitsOk t then some (natVal t : ℤ) else none

/-- `parse_bp` (bodylog.py:72-77): unpack the split on `/` into exactly two
parts and parse both as `int(part.strip())`; any failure (wrong number of
parts, unparseable component) is caught and yields `(None, None)`. -/
def parse_bp (bp_str : String) : Option ℤ × Option ℤ :=
  match splitSlash bp_str.data with
  | [x, y] =>
    match pyIntL (stripWsL x), pyIntL (stripWsL y) with
    | some a, some b => (some a, some b)
    | _, _ => (none, none)
  | _ => (none, none)

def bpVeryFlag : String := "혈압 매우 높음"

def bpHiFlag : String := "혈압 높음"

def hrFlag : String := "심박 비정상"

def tempFlag : String := "고열"

def sugarDangerFlag : String := "혈당 위험"

def sugarHiFlag : String := "혈당 높음"

def spo2Flag : String := "저산소"

def rrFlag : String := "호흡수 이상"

/-- Blood-pressure rule of `abnormal_flags` (bodylog.py:82-88). Python's
`if s and d:` is a truthiness test: both parsed components must be non-`None`
and nonzero. -/
def bpFlags (row : Entry) (thr : Thresholds) : List String :=
  match row.bp with
  | none => []
  | some v =>
    match parse_bp (pyStr v) with
    | (some s, some d) =>
      if s ≠ 0 ∧ d ≠ 0 then
        if (s : ℚ) ≥ thr.bp_sys_very ∨ (d : ℚ) ≥ thr.bp_dia_very then [bpVeryFlag]
        else if (s : ℚ) ≥ thr.bp_sys_hi ∨ (d : ℚ) ≥ thr.bp_dia_hi then [bpHiFlag]
        else []
      else []
    | _ => []

/-- `row.get(k)` followed by the numeric `isinstance` test. -/
def numOf (o : Option Value) : Option ℚ := o.bind Value.toNum

/-- Heart-rate rule (bodylog.py:90-91). -/
def hrFlags (row : Entry) (thr : Thresholds) : List String :=
  match numOf row.hr with
  | some x => if x < thr.hr_lo ∨ x > thr.hr_hi then [hrFlag] else []
  | none => []

/-- Temperature rule (bodylog.py:93-94). -/
def tempFlags (row : Entry) (thr : Thresholds) : List String :=
  match numOf row.temp with
  | some x => if x ≥ thr.temp_hi then [tempFlag] else []
  | none => []

/-- Sugar rule (bodylog.py:96-100): danger takes priority over high. -/
def sugarFlags (row : Entry) (thr : Thresholds) : List String :=
  match numOf row.sugar with
  | some x =>
    if x ≥ thr.sugar_very ∨ x ≤ thr.sugar_lo then [sugarDangerFlag]
    else if x ≥ thr.sugar_hi then [sugarHiFlag]
    else []
  | none => []

/-- Oxygen-saturation rule (bodylog.py:102-103). -/
def spo2Flags (row : Entry) (thr : Thresholds) : List String :=
  match numOf row.spo2 with
  | some x => if x < thr.spo2_lo then [spo2Flag] else []
  | none => []

/-- Respiration-rate rule (bodylog.py:105-106). -/
def rrFlags (row : Entry) (thr : Thresholds) : List String :=
  match numOf row.rr with
  | some x => if x < thr.rr_lo ∨ x > thr.rr_hi then [rrFlag] else []
  | none => []

/-- The flag list built by `abnormal_flags` (bodylog.py:79-107), in
rule-declaration order, before joining. -/
def abnormalFlagsList (row : Entry) (thr : Thresholds) : List String :=
  bpFlags row thr ++ hrFlags row thr ++ tempFlags row thr ++ sugarFlags row thr ++
    spo2Flags row thr ++ rrFlags row thr

/-- `abnormal_flags` (bodylog.py:79-107): the `", "`-joined flag string. -/
def abnormal_flags (row : Entry) (thr : Thresholds) : String :=
  String.intercalate ", " (abnormalFlagsList row thr)

/-- All flag strings in rule-declaration order. -/
def flagOrder : List String :=
  [bpVeryFlag, bpHiFlag, hrFlag, tempFlag, sugarDangerFlag, sugarHiFlag, spo2Flag, rrFlag]

/-- The descending-by-raw-`ts`-string ordering used by
`DB["entries"].sort(key=lambda x: x["ts"], reverse=True)` (bodylog.py:329). -/
def tsGe (a b : Entry) : Prop := b.ts ≤ a.ts

instance : DecidableRel tsGe := fun a b => inferInstanceAs (Decidable (b.ts ≤ a.ts))

instance : IsTotal Entry tsGe := ⟨fun a b => le_total b.ts a.ts⟩

instance : IsTrans Entry tsGe := ⟨fun _ _ _ h1 h2 => le_trans h2 h1⟩

/-- The append step of the submit handler (bodylog.py:328-330): append the new
entry, then stably re-sort the whole collection descending by the raw `ts`
string (a stable sort, like CPython's). -/
def appendSorted (entries : List Entry) (e : Entry) : List Entry :=
  List.insertionSort tsGe (entries ++ [e])

/-- `migrate_ids` (bodylog.py:179-187): walk the collection and assign a fresh
id (`uuid4().hex`, modelled as an injected supply of identifiers, consumed in
order starting at index `k`) to every entry lacking one. -/
def migrateIds (supply : ℕ → String) (k : ℕ) : List Entry → List Entry
  | [] => []
  | e :: es =>
    match e.id with
    | some _ => e :: migrateIds supply k es
    | none => { e with id := some (supply k) } :: migrateIds supply (k + 1) es

/-- The `changed` counter of `migrate_ids`: the number of entries that lacked an
id (the file is re-saved exactly when it is positive). -/
def migrateCount (entries : List Entry) : ℕ :=
  entries.countP (fun e => e.id = none)

/-- The id-membership test of targeted deletion, from
`e.get("id") not in ids_to_del` (bodylog.py:489): the id list never contains
`None` (it is produced through `dropna()`), so an id-less entry never matches. -/
def idMatches (ids : List String) (e : Entry) : Bool :=
  match e.id with
  | some i => ids.contains i
  | none => false

/-- `tab_sel` targeted deletion (bodylog.py:489): keep every entry whose id is
not in the selected id list. -/
def deleteByIds (entries : List Entry) (ids : List String) : List Entry :=
  entries.filter (fun e => ! idMatches ids e)

/-- Parsed-timestamp range membership `del_start_dt <= ts <= del_end_dt`
(inclusive on both ends); an unparseable timestamp never matches
(bodylog.py:506-512). -/
def inRange (lo hi : DateTime) (e : Entry) : Bool :=
  match parseTs e.ts with
  | some t => lo.key ≤ t.key && t.key ≤ hi.key
  | none => false

/-- `tab_rng` range deletion (bodylog.py:505-519): collect the in-range
candidate entries, keep the entries not value-contained in the candidate list
(Python `e not in cand` compares whole dicts), and report the candidate count. -/
def rangeDelete (entries : List Entry) (lo hi : DateTime) : List Entry × ℕ :=
  let cand := entries.filter (inRange lo hi)
  (entries.filter (fun e => ! cand.contains e), cand.length)

/-- The typed values the input form supplies (bodylog.py:259-267): `bp` is a
text input, `hr`/`spo2`/`rr` are integer number-inputs, the rest are float
number-inputs; `none` stands for a metric that was not rendered. -/
structure FormValues where
  bp : Option String := none
  hr : Option ℤ := none
  temp : Option ℚ := none
  sugar : Option ℚ := none
  spo2 : Option ℤ := none
  rr : Option ℤ := none
  weight : Option ℚ := none
  waist : Option ℚ := none
  bmi : Option ℚ := none
deriving DecidableEq, Repr

/-- A rendered form value is stored when the metric is active and the value is
neither `None` nor a whitespace-only string (bodylog.py:313-317). -/
def keepNum {α : Type} (name : String) (active : List String) (v : Option α)
    (inj : α → Value) : Option Value :=
  if name ∈ active then v.map inj else none

/-- The submitted-entry construction (bodylog.py:312-317, 325-326): `ts` from
the record datetime, each active metric's value (a blank blood-pressure text is
skipped), and the stripped memo when nonblank. No id is ever assigned here. -/
def buildEntry (ts : String) (vals : FormValues) (active : List String)
    (memo : String) : Entry :=
  { ts := ts
    bp :=
      if "bp" ∈ active then
        match vals.bp with
        | some s => if stripWsL s.data = [] then none else some (.str s)
        | none => none
      else none
    hr := keepNum "hr" active vals.hr .int
    temp := keepNum "temp" active vals.temp .float
    sugar := keepNum "sugar" active vals.sugar .float
    spo2 := keepNum "spo2" active vals.spo2 .int
    rr := keepNum "rr" active vals.rr .int
    weight := keepNum "weight" active vals.weight .float
    waist := keepNum "waist" active vals.waist .float
    bmi := keepNum "bmi" active vals.bmi .float
    memo := if stripWsL memo.data = [] then none else some (String.mk (stripWsL memo.data)) }

/-- Round half to even, as Python's `round` ties. -/
def rhe (x : ℚ) : ℤ :=
  let f := ⌊x⌋
  let r := x - (f : ℚ)
  if r < 1 / 2 then f
  else if 1 / 2 < r then f + 1
  else if 2 ∣ f then f
  else f + 1

/-- Python `round(x, 2)` on the rationals standing in for floats. -/
def round2 (x : ℚ) : ℚ := (rhe (x * 100) : ℚ) / 100

/-- The BMI auto-derivation step of the submit handler (bodylog.py:319-323):
when `PROFILE.get("height_cm")` is truthy (present and nonzero), a weight is
stored, `bmi` is active and not already stored, and `h_m = height/100 > 0`,
inject `round(weight / h_m**2, 2)`. The `.error` case models `float()` raising
on a non-numeric stored weight; entries built by the form always hold a numeric
weight, so the submit path never reaches it. -/
def deriveBmi (e : Entry) (height_cm : Option ℚ) (active : List String) :
    Except Unit Entry :=
  match height_cm, e.weight, e.bmi with
  | some hcm, some w, none =>
    if hcm ≠ 0 ∧ "bmi" ∈ active then
      if hcm / 100 > 0 then
        match w.toNum with
        | some wq => .ok { e with bmi := some (.float (round2 (wq / (hcm / 100) ^ 2))) }
        | none => .error ()
      else .ok e
    else .ok e
  | _, _, _ => .ok e

/-- The parsed content of a well-formed config file: a JSON mapping that may or
may not carry the `metrics` and `thresholds` keys. -/
structure StoredConfig where
  metrics : Option (List String) := none
  thresholds : Option Thresholds := none
deriving DecidableEq

/-- `DEFAULT_CONFIG` (bodylog.py:18-29). -/
def DEFAULT_CONFIG : StoredConfig :=
  { metrics := some defaultMetrics, thresholds := some defaultThresholds }

/-- The states a stored JSON file can present to `load_json`: absent,
unreadable or unparseable, or successfully parsed content. -/
inductive FileState (α : Type) where
  | missing
  | unreadable
  | parsed (content : α)
deriving DecidableEq

/-- `load_json` (bodylog.py:62-66): any exception while reading or parsing the
file falls back to the supplied default; a file that parses is returned as-is,
whatever keys it carries. -/
def load_json {α : Type} (file : FileState α) (default : α) : α :=
  match file with
  | .missing => default
  | .unreadable => default
  | .parsed c => c

/-- `CFG.get("metrics", DEFAULT_CONFIG["metrics"]) or []` (bodylog.py:253). -/
def activeMetricsOf (cfg : StoredConfig) : List String :=
  let m := cfg.metrics.getD defaultMetrics
  if m = [] then [] else m

/-- The submit handler's flag computation
`abnormal_flags(entry, CFG["thresholds"])` (bodylog.py:332): the subscript
raises `KeyError` when the loaded config mapping lacks the `thresholds` key;
the error value models that exception. -/
def submitEval (cfg : StoredConfig) (row : Entry) : Except String (List String) :=
  match cfg.thresholds with
  | some thr => .ok (abnormalFlagsList row thr)
  | none => .error "KeyError: thresholds"

/-- Two-character zero-padded decimal rendering. -/
def pad2 (n : ℕ) : List Char := [Char.ofNat (48 + n / 10), Char.ofNat (48 + n % 10)]

/-- Four-character zero-padded decimal rendering. -/
def pad4 (n : ℕ) : List Char := pad2 (n / 100) ++ pad2 (n % 100)

/-- `ts.strftime("%Y-%m-%d %H:%M")` (bodylog.py:380). -/
def fmtMinute (t : DateTime) : String :=
  String.mk (pad4 t.y ++ '-' :: (pad2 t.mo ++ '-' :: (pad2 t.d ++ ' ' ::
    (pad2 t.h ++ ':' :: pad2 t.mi))))

/-- One table row as projected by the query loop (bodylog.py:380-386): the
formatted date, the present metric fields in `METRIC_META` order, the computed
warning string, and the memo when present. -/
structure TableRow where
  date : String
  bp : Option Value
  hr : Option Value
  temp : Option Value
  sugar : Option Value
  spo2 : Option Value
  rr : Option Value
  weight : Option Value
  waist : Option Value
  bmi : Option Value
  warn : String
  memo : Option String
deriving DecidableEq

/-- The projection of one qualifying entry to its table row
(bodylog.py:380-386). -/
def projectRow (thr : Thresholds) (r : Entry) (t : DateTime) : TableRow :=
  { date := fmtMinute t
    bp := r.bp, hr := r.hr, temp := r.temp, sugar := r.sugar, spo2 := r.spo2
    rr := r.rr, weight := r.weight, waist := r.waist, bmi := r.bmi
    warn := abnormal_flags r thr, memo := r.memo }

/-- The table-query loop (bodylog.py:370-387): skip entries whose timestamp
fails to parse or falls outside `[start_dt, end_dt]`, apply the keyword filter
`if kw and kw not in r.get("memo", "")` (an empty keyword means no filter), and
project every surviving entry. -/
def tableRows (entries : List Entry) (lo hi : DateTime) (kw : String)
    (thr : Thresholds) : List TableRow :=
  entries.filterMap (fun r =>
    match parseTs r.ts with
    | none => none
    | some t =>
      if lo.key ≤ t.key ∧ t.key ≤ hi.key then
        if kw ≠ "" ∧ ¬ (kw.data <:+: (r.memo.getD "").data) then none
        else some (projectRow thr r t)
      else none)

/-- The qualification condition of the table query, phrased as the spec states
it: the parsed timestamp lies in the inclusive window, and either no keyword is
given or the keyword is a case-sensitive substring of the present memo. -/
def tableQualifiesB (lo hi : DateTime) (kw : String) (r : Entry) : Bool :=
  (match parseTs r.ts with
   | some t => decide (lo.key ≤ t.key ∧ t.key ≤ hi.key)
   | none => false) &&
  (kw == "" ||
   match r.memo with
   | some m => decide (kw.data <:+: m.data)
   | none => false)

/-! ### Helper lemmas about the evaluator blocks -/

theorem parse_bp_total_or_none (s : String) :
    (∃ a b, parse_bp s = (some a, some b)) ∨ parse_bp s = (none, none) := by
  unfold parse_bp
  split
  · split
    · exact .inl ⟨_, _, rfl⟩
    · exact .inr rfl
  · exact .inr rfl

theorem bpFlags_mem {row : Entry} {thr : Thresholds} {x : String}
    (h : x ∈ bpFlags row thr) : x = bpVeryFlag ∨ x = bpHiFlag := by
  unfold bpFlags at h
  split at h
  · simp at h
  · split at h
    · split_ifs at h <;> simp_all
    · simp at h

theorem hrFlags_mem {row : Entry} {thr : Thresholds} {x : String}
    (h : x ∈ hrFlags row thr) : x = hrFlag := by
  unfold hrFlags at h
  split at h
  · split_ifs at h <;> simp_all
  · simp at h

theorem tempFlags_mem {row : Entry} {thr : Thresholds} {x : String}
    (h : x ∈ tempFlags row thr) : x = tempFlag := by
  unfold tempFlags at h
  split at h
  · split_ifs at h <;> simp_all
  · simp at h

theorem sugarFlags_mem {row : Entry} {thr : Thresholds} {x : String}
    (h : x ∈ sugarFlags row thr) : x = sugarDangerFlag ∨ x = sugarHiFlag := by
  unfold sugarFlags at h
  split at h
  · split_ifs at h <;> simp_all
  · simp at h

theorem spo2Flags_mem {row : Entry} {thr : Thresholds} {x : String}
    (h : x ∈ spo2Flags row thr) : x = spo2Flag := by
  unfold spo2Flags at h
  split at h
  · split_ifs at h <;> simp_all
  · simp at h

theorem rrFlags_mem {row : Entry} {thr : Thresholds} {x : String}
    (h : x ∈ rrFlags row thr) : x = rrFlag := by
  unfold rrFlags at h
  split at h
  · split_ifs at h <;> simp_all
  · simp at h

theorem mem_flags_decomp (row : Entry) (thr : Thresholds) (x : String) :
    x ∈ abnormalFlagsList row thr ↔
      x ∈ bpFlags row thr ∨ x ∈ hrFlags row thr ∨ x ∈ tempFlags row thr ∨
        x ∈ sugarFlags row thr ∨ x ∈ spo2Flags row thr ∨ x ∈ rrFlags row thr := by
  simp [abnormalFlagsList, List.mem_append, or_assoc]

theorem bpFlags_sub (row : Entry) (thr : Thresholds) :
    List.Sublist (bpFlags row thr) [bpVeryFlag, bpHiFlag] := by
  unfold bpFlags
  split
  · simp
  · split
    · split_ifs <;> simp
    · simp

theorem hrFlags_sub (row : Entry) (thr : Thresholds) : List.Sublist (hrFlags row thr) [hrFlag] := by
  unfold hrFlags
  split
  · split_ifs <;> simp
  · simp

theorem tempFlags_sub (row : Entry) (thr : Thresholds) : List.Sublist (tempFlags row thr) [tempFlag] := by
  unfold tempFlags
  split
  · split_ifs <;> simp
  · simp

theorem sugarFlags_sub (row : Entry) (thr : Thresholds) :
    List.Sublist (sugarFlags row thr) [sugarDangerFlag, sugarHiFlag] := by
  unfold sugarFlags
  split
  · split_ifs <;> simp
  · simp

theorem spo2Flags_sub (row : Entry) (thr : Thresholds) : List.Sublist (spo2Flags row thr) [spo2Flag] := by
  unfold spo2Flags
  split
  · split_ifs <;> simp
  · simp

theorem rrFlags_sub (row : Entry) (thr : Thresholds) : List.Sublist (rrFlags row thr) [rrFlag] := by
  unfold rrFlags
  split
  · split_ifs <;> simp
  · simp

theorem bpFlags_of_bp_none {row : Entry} (thr : Thresholds) (h : row.bp = none) :
    bpFlags row thr = [] := by
  unfold bpFlags
  rw [h]

theorem hrFlags_of_none {row : Entry} (thr : Thresholds) (h : numOf row.hr = none) :
    hrFlags row thr = [] := by
  unfold hrFlags
  rw [h]

theorem tempFlags_of_none {row : Entry} (thr : Thresholds) (h : numOf row.temp = none) :
    tempFlags row thr = [] := by
  unfold tempFlags
  rw [h]

theorem sugarFlags_of_none {row : Entry} (thr : Thresholds) (h : numOf row.sugar = none) :
    sugarFlags row thr = [] := by
  unfold sugarFlags
  rw [h]

theorem spo2Flags_of_none {row : Entry} (thr : Thresholds) (h : numOf row.spo2 = none) :
    spo2Flags row thr = [] := by
  unfold spo2Flags
  rw [h]

theorem rrFlags_of_none {row : Entry} (thr : Thresholds) (h : numOf row.rr = none) :
    rrFlags row thr = [] := by
  unfold rrFlags
  rw [h]

/-! ### Claim C1 -/

/-- C1: for every observation record and every threshold set, the abnormality
evaluator totally computes its (possibly empty) flag list — the embedding is a
total function, mirroring that no lookup or comparison in `abnormal_flags` can
raise once the threshold set carries all its named limits — the produced flags
appear in the fixed rule-declaration order (blood pressure, heart rate,
temperature, sugar, oxygen saturation, respiration rate), and a rule whose
field is absent or non-numeric contributes no flag. -/
theorem C1_evaluator_total_ordered (row : Entry) (thr : Thresholds) :
    List.Sublist (abnormalFlagsList row thr) flagOrder ∧
      abnormal_flags row thr = String.intercalate ", " (abnormalFlagsList row thr) ∧
      (row.bp = none →
        bpVeryFlag ∉ abnormalFlagsList row thr ∧ bpHiFlag ∉ abnormalFlagsList row thr) ∧
      (numOf row.hr = none → hrFlag ∉ abnormalFlagsList row thr) ∧
      (numOf row.temp = none → tempFlag ∉ abnormalFlagsList row thr) ∧
      (numOf row.sugar = none →
        sugarDangerFlag ∉ abnormalFlagsList row thr ∧
          sugarHiFlag ∉ abnormalFlagsList row thr) ∧
      (numOf row.spo2 = none → spo2Flag ∉ abnormalFlagsList row thr) ∧
      (numOf row.rr = none → rrFlag ∉ abnormalFlagsList row thr) := by
  have horder : List.Sublist (abnormalFlagsList row thr) flagOrder := by
    have h1 := bpFlags_sub row thr
    have h2 := hrFlags_sub row thr
    have h3 := tempFlags_sub row thr
    have h4 := sugarFlags_sub row thr
    have h5 := spo2Flags_sub row thr
    have h6 := rrFlags_sub row thr
    have : flagOrder = [bpVeryFlag, bpHiFlag] ++ [hrFlag] ++ [tempFlag] ++
        [sugarDangerFlag, sugarHiFlag] ++ [spo2Flag] ++ [rrFlag] := rfl
    rw [this]
    exact ((((h1.append h2).append h3).append h4).append h5).append h6
  refine ⟨horder, rfl, ?_, ?_, ?_, ?_, ?_, ?_⟩
  · intro h
    constructor <;> intro hmem <;>
      rcases (mem_flags_decomp row thr _).mp hmem with hb | hb | hb | hb | hb | hb
    · rw [bpFlags_of_bp_none thr h] at hb; simp at hb
    · exact absurd (hrFlags_mem hb) (by decide)
    · exact absurd (tempFlags_mem hb) (by decide)
    · rcases sugarFlags_mem hb with h' | h' <;> exact absurd h' (by decide)
    · exact absurd (spo2Flags_mem hb) (by decide)
    · exact absurd (rrFlags_mem hb) (by decide)
    · rw [bpFlags_of_bp_none thr h] at hb; simp at hb
    · exact absurd (hrFlags_mem hb) (by decide)
    · exact absurd (tempFlags_mem hb) (by decide)
    · rcases sugarFlags_mem hb with h' | h' <;> exact absurd h' (by decide)
    · exact absurd (spo2Flags_mem hb) (by decide)
    · exact absurd (rrFlags_mem hb) (by decide)
  · intro h hmem
    rcases (mem_flags_decomp row thr _).mp hmem with hb | hb | hb | hb | hb | hb
    · rcases bpFlags_mem hb with h' | h' <;> exact absurd h' (by decide)
    · rw [hrFlags_of_none thr h] at hb; simp at hb
    · exact absurd (tempFlags_mem hb) (by decide)
    · rcases sugarFlags_mem hb with h' | h' <;> exact absurd h' (by decide)
    · exact absurd (spo2Flags_mem hb) (by decide)
    · exact absurd (rrFlags_mem hb) (by decide)
  · intro h hmem
    rcases (mem_flags_decomp row thr _).mp hmem with hb | hb | hb | hb | hb | hb
    · rcases bpFlags_mem hb with h' | h' <;> exact absurd h' (by decide)
    · exact absurd (hrFlags_mem hb) (by decide)
    · rw [tempFlags_of_none thr h] at hb; simp at hb
    · rcases sugarFlags_mem hb with h' | h' <;> exact absurd h' (by decide)
    · exact absurd (spo2Flags_mem hb) (by decide)
    · exact absurd (rrFlags_mem hb) (by decide)
  · intro h
    constructor <;> intro hmem <;>
      rcases (mem_flags_decomp row thr _).mp hmem with hb | hb | hb | hb | hb | hb
    · rcases bpFlags_mem hb with h' | h' <;> exact absurd h' (by decide)
    · exact absurd (hrFlags_mem hb) (by decide)
    · exact absurd (tempFlags_mem hb) (by decide)
    · rw [sugarFlags_of_none thr h] at hb; simp at hb
    · exact absurd (spo2Flags_mem hb) (by decide)
    · exact absurd (rrFlags_mem hb) (by decide)
    · rcases bpFlags_mem hb with h' | h' <;> exact absurd h' (by decide)
    · exact absurd (hrFlags_mem hb) (by decide)
    · exact absurd (tempFlags_mem hb) (by decide)
    · rw [sugarFlags_of_none thr h] at hb; simp at hb
    · exact absurd (spo2Flags_mem hb) (by decide)
    · exact absurd (rrFlags_mem hb) (by decide)
  · intro h hmem
    rcases (mem_flags_decomp row thr _).mp hmem with hb | hb | hb | hb | hb | hb
    · rcases bpFlags_mem hb with h' | h' <;> exact absurd h' (by decide)
    · exact absurd (hrFlags_mem hb) (by decide)
    · exact absurd (tempFlags_mem hb) (by decide)
    · rcases sugarFlags_mem hb with h' | h' <;> exact absurd h' (by decide)
    · rw [spo2Flags_of_none thr h] at hb; simp at hb
    · exact absurd (rrFlags_mem hb) (by decide)
  · intro h hmem
    rcases (mem_flags_decomp row thr _).mp hmem with hb | hb | hb | hb | hb | hb
    · rcases bpFlags_mem hb with h' | h' <;> exact absurd h' (by decide)
    · exact absurd (hrFlags_mem hb) (by decide)
    · exact absurd (tempFlags_mem hb) (by decide)
    · rcases sugarFlags_mem hb with h' | h' <;> exact absurd h' (by decide)
    · exact absurd (spo2Flags_mem hb) (by decide)
    · rw [rrFlags_of_none thr h] at hb; simp at hb

/-- C1 witness: at a concrete observation with an absent heart-rate field, the
flag list is a sublist of the rule order and no heart-rate flag appears. -/
theorem C1_witness :
    List.Sublist
        (abnormalFlagsList { ts := "t", temp := some (.float 39) } defaultThresholds)
        flagOrder ∧
      hrFlag ∉ abnormalFlagsList { ts := "t", temp := some (.float 39) }
        defaultThresholds :=
  ⟨(C1_evaluator_total_ordered { ts := "t", temp := some (.float 39) }
      defaultThresholds).1,
    (C1_evaluator_total_ordered { ts := "t", temp := some (.float 39) }
      defaultThresholds).2.2.2.1 (by decide)⟩

/-! ### Claim C3 -/

theorem mem_bp_block_iff (row : Entry) (thr : Thresholds) (x : String)
    (hx : x = bpVeryFlag ∨ x = bpHiFlag) :
    x ∈ abnormalFlagsList row thr ↔ x ∈ bpFlags row thr := by
  rw [mem_flags_decomp]
  constructor
  · rintro (h | h | h | h | h | h)
    · exact h
    · rcases hx with rfl | rfl <;> exact absurd (hrFlags_mem h) (by decide)
    · rcases hx with rfl | rfl <;> exact absurd (tempFlags_mem h) (by decide)
    · rcases hx with rfl | rfl <;> rcases sugarFlags_mem h with h' | h' <;>
        exact absurd h' (by decide)
    · rcases hx with rfl | rfl <;> exact absurd (spo2Flags_mem h) (by decide)
    · rcases hx with rfl | rfl <;> exact absurd (rrFlags_mem h) (by decide)
  · exact Or.inl

theorem bpFlags_eq_of_parsed {row : Entry} {v : Value} {s d : ℤ} (thr : Thresholds)
    (hbp : row.bp = some v) (hp : parse_bp (pyStr v) = (some s, some d))
    (hs : s ≠ 0) (hd : d ≠ 0) :
    bpFlags row thr =
      if (s : ℚ) ≥ thr.bp_sys_very ∨ (d : ℚ) ≥ thr.bp_dia_very then [bpVeryFlag]
      else if (s : ℚ) ≥ thr.bp_sys_hi ∨ (d : ℚ) ≥ thr.bp_dia_hi then [bpHiFlag]
      else [] := by
  simp only [bpFlags, hbp, hp]
  simp [hs, hd]

/-- C3 counterexample: the observation whose blood-pressure text is `"0/200"`
parses into the two present components `0` and `200`, and `200` reaches the
default critical-diastolic limit `120`, yet the evaluator emits no flag at all:
Python's `if s and d:` treats the parsed `0` as falsy and skips the whole rule,
so the claim as stated fails. -/
theorem C3_counterexample :
    parse_bp (pyStr (Value.str "0/200")) = (some 0, some 200) ∧
      ((200 : ℤ) : ℚ) ≥ defaultThresholds.bp_dia_very ∧
      abnormalFlagsList { ts := "t", bp := some (.str "0/200") } defaultThresholds
        = [] := by
  refine ⟨by decide, by norm_num [defaultThresholds], by decide⟩

/-- C3 (amended): for an observation whose blood-pressure field parses into two
present *nonzero* components `s` and `d`, the evaluator emits the "very high"
flag exactly when `s ≥` critical-systolic or `d ≥` critical-diastolic, and
otherwise emits the "high" flag exactly when `s ≥` high-systolic or `d ≥`
high-diastolic; the two variants are mutually exclusive; no blood-pressure flag
is emitted when parsing fails, nor — the amendment the code forces — when a
component parses to zero (Python truthiness skips the rule). -/
theorem C3_bp_rule (row : Entry) (thr : Thresholds) :
    (∀ (v : Value) (s d : ℤ), row.bp = some v → parse_bp (pyStr v) = (some s, some d) →
      s ≠ 0 → d ≠ 0 →
      ((bpVeryFlag ∈ abnormalFlagsList row thr ↔
          (s : ℚ) ≥ thr.bp_sys_very ∨ (d : ℚ) ≥ thr.bp_dia_very) ∧
        (bpHiFlag ∈ abnormalFlagsList row thr ↔
          (¬ ((s : ℚ) ≥ thr.bp_sys_very ∨ (d : ℚ) ≥ thr.bp_dia_very) ∧
            ((s : ℚ) ≥ thr.bp_sys_hi ∨ (d : ℚ) ≥ thr.bp_dia_hi))) ∧
        ¬ (bpVeryFlag ∈ abnormalFlagsList row thr ∧
            bpHiFlag ∈ abnormalFlagsList row thr))) ∧
    (∀ v : Value, row.bp = some v → parse_bp (pyStr v) = (none, none) →
      bpVeryFlag ∉ abnormalFlagsList row thr ∧ bpHiFlag ∉ abnormalFlagsList row thr) ∧
    (∀ (v : Value) (s d : ℤ), row.bp = some v → parse_bp (pyStr v) = (some s, some d) →
      (s = 0 ∨ d = 0) →
      bpVeryFlag ∉ abnormalFlagsList row thr ∧ bpHiFlag ∉ abnormalFlagsList row thr) := by
  refine ⟨?_, ?_, ?_⟩
  · intro v s d hbp hp hs hd
    have heq := bpFlags_eq_of_parsed thr hbp hp hs hd
    have hv := mem_bp_block_iff row thr bpVeryFlag (Or.inl rfl)
    have hh := mem_bp_block_iff row thr bpHiFlag (Or.inr rfl)
    rw [heq] at hv hh
    by_cases hcrit : (s : ℚ) ≥ thr.bp_sys_very ∨ (d : ℚ) ≥ thr.bp_dia_very
    · rw [if_pos hcrit] at hv hh
      refine ⟨?_, ?_, ?_⟩
      · simpa [hv] using hcrit
      · rw [hh]
        simp [hcrit]
        decide
      · rintro ⟨-, h2⟩
        rw [hh] at h2
        exact absurd h2 (by decide)
    · rw [if_neg hcrit] at hv hh
      by_cases hhi : (s : ℚ) ≥ thr.bp_sys_hi ∨ (d : ℚ) ≥ thr.bp_dia_hi
      · rw [if_pos hhi] at hv hh
        refine ⟨?_, ?_, ?_⟩
        · rw [hv]
          simp [hcrit]
          decide
        · simp [hh, hcrit, hhi]
        · rintro ⟨h1, -⟩
          rw [hv] at h1
          exact absurd h1 (by decide)
      · rw [if_neg hhi] at hv hh
        simp [hv, hh, hcrit, hhi]
  · intro v hbp hp
    have hblock : bpFlags row thr = [] := by
      simp only [bpFlags, hbp, hp]
    constructor <;> intro hmem
    · rw [mem_bp_block_iff row thr bpVeryFlag (Or.inl rfl), hblock] at hmem
      simp at hmem
    · rw [mem_bp_block_iff row thr bpHiFlag (Or.inr rfl), hblock] at hmem
      simp at hmem
  · intro v s d hbp hp hzero
    have hblock : bpFlags row thr = [] := by
      have : ¬ (s ≠ 0 ∧ d ≠ 0) := by
        rcases hzero with h | h <;> simp [h]
      simp only [bpFlags, hbp, hp]
      simp [this]
    constructor <;> intro hmem
    · rw [mem_bp_block_iff row thr bpVeryFlag (Or.inl rfl), hblock] at hmem
      simp at hmem
    · rw [mem_bp_block_iff row thr bpHiFlag (Or.inr rfl), hblock] at hmem
      simp at hmem

/-- C3 witness: at a concrete observation `bp = "190/70"` with the default
thresholds, the amended rule applies and yields exactly the critical flag. -/
theorem C3_witness :
    bpVeryFlag ∈ abnormalFlagsList { ts := "t", bp := some (.str "190/70") }
        defaultThresholds ∧
      ¬ (bpVeryFlag ∈ abnormalFlagsList { ts := "t", bp := some (.str "190/70") }
            defaultThresholds ∧
          bpHiFlag ∈ abnormalFlagsList { ts := "t", bp := some (.str "190/70") }
            defaultThresholds) := by
  have h := (C3_bp_rule { ts := "t", bp := some (.str "190/70") } defaultThresholds).1
    (.str "190/70") 190 70 rfl (by decide) (by decide) (by decide)
  exact ⟨h.1.mpr (by norm_num [defaultThresholds]), h.2.2⟩

/-! ### Claims C4 and C9 -/

/-- C4: range deletion keeps exactly the entries whose parsed timestamp does
not lie in the inclusive window — although the code filters by whole-value
membership in the candidate list, value-equal entries share the same parsed
timestamp, so the result coincides with the plain timestamp filter — every
entry whose timestamp fails to parse survives, and the reported count is the
number of in-range entries. -/
theorem C4_range_delete (entries : List Entry) (lo hi : DateTime) :
    (rangeDelete entries lo hi).1 = entries.filter (fun e => ! inRange lo hi e) ∧
      (rangeDelete entries lo hi).2 = entries.countP (inRange lo hi) ∧
      (∀ e, e ∈ (rangeDelete entries lo hi).1 ↔
        e ∈ entries ∧ inRange lo hi e = false) ∧
      (∀ e, e ∈ entries → parseTs e.ts = none → e ∈ (rangeDelete entries lo hi).1) := by
  have hfil : (rangeDelete entries lo hi).1
      = entries.filter (fun e => ! inRange lo hi e) := by
    unfold rangeDelete
    apply List.filter_congr
    intro a ha
    by_cases h : inRange lo hi a
    · have hmem : a ∈ entries.filter (inRange lo hi) := List.mem_filter.mpr ⟨ha, h⟩
      simp [List.elem_iff.mpr hmem, h, ha]
    · have hmem : a ∉ entries.filter (inRange lo hi) := by
        intro hc
        exact h (List.mem_filter.mp hc).2
      simp only [Bool.not_eq_true] at h
      simp [h, List.elem_iff, hmem]
  refine ⟨hfil, ?_, ?_, ?_⟩
  · unfold rangeDelete
    exact (List.countP_eq_length_filter _ _).symm
  · intro e
    rw [hfil, List.mem_filter]
    simp
  · intro e he hts
    rw [hfil, List.mem_filter]
    refine ⟨he, ?_⟩
    simp [inRange, hts]

/-- C4 witness: on a concrete collection the unparseable-timestamp entry
survives range deletion. -/
theorem C4_witness :
    { ts := "garbage" : Entry } ∈
      (rangeDelete [{ ts := "2024-05-01T10:00:00" }, { ts := "garbage" }]
        ⟨2024, 1, 1, 0, 0, 0⟩ ⟨2024, 12, 31, 23, 59, 59⟩).1 :=
  (C4_range_delete [{ ts := "2024-05-01T10:00:00" }, { ts := "garbage" }]
      ⟨2024, 1, 1, 0, 0, 0⟩ ⟨2024, 12, 31, 23, 59, 59⟩).2.2.2
    { ts := "garbage" } (by decide) (by decide)

/-- C9: deletion by id set keeps the surviving entries as a sublist of the
original collection — each one unchanged, in order — and an entry survives
exactly when its id is not a member of the set; in particular every id-less
entry survives, and the match test holds exactly when the entry's id is in the
set. -/
theorem C9_delete_by_ids (entries : List Entry) (ids : List String) :
    List.Sublist (deleteByIds entries ids) entries ∧
      (∀ e, e ∈ deleteByIds entries ids ↔ e ∈ entries ∧ idMatches ids e = false) ∧
      (∀ e, idMatches ids e = true ↔ ∃ i, e.id = some i ∧ i ∈ ids) ∧
      (∀ e, e ∈ entries → e.id = none → e ∈ deleteByIds entries ids) := by
  refine ⟨List.filter_sublist _, ?_, ?_, ?_⟩
  · intro e
    unfold deleteByIds
    rw [List.mem_filter]
    simp
  · intro e
    unfold idMatches
    match h : e.id with
    | some i => simp [List.elem_iff]
    | none => simp
  · intro e he hid
    unfold deleteByIds
    rw [List.mem_filter]
    refine ⟨he, ?_⟩
    simp [idMatches, hid]

/-- C9 witness: in a concrete collection, the matching entry is removed while
the id-less entry and the non-matching entry survive untouched. -/
theorem C9_witness :
    ({ ts := "b", id := some "x" : Entry } ∈
        deleteByIds [{ ts := "a", id := some "k" }, { ts := "b", id := some "x" },
          { ts := "c" }] ["k"] ↔
      ({ ts := "b", id := some "x" : Entry } ∈
          ([{ ts := "a", id := some "k" }, { ts := "b", id := some "x" },
            { ts := "c" }] : List Entry) ∧
        idMatches ["k"] { ts := "b", id := some "x" } = false)) ∧
      { ts := "c" : Entry } ∈
        deleteByIds [{ ts := "a", id := some "k" }, { ts := "b", id := some "x" },
          { ts := "c" }] ["k"] :=
  ⟨((C9_delete_by_ids [{ ts := "a", id := some "k" }, { ts := "b", id := some "x" },
        { ts := "c" }] ["k"]).2.1 { ts := "b", id := some "x" }),
    ((C9_delete_by_ids [{ ts := "a", id := some "k" }, { ts := "b", id := some "x" },
        { ts := "c" }] ["k"]).2.2.2 { ts := "c" } (by decide) (by decide))⟩

/-! ### Claim C10 -/

theorem tableRow_step (lo hi : DateTime) (kw : String) (thr : Thresholds) (r : Entry) :
    (match parseTs r.ts with
      | none => none
      | some t =>
        if lo.key ≤ t.key ∧ t.key ≤ hi.key then
          if kw ≠ "" ∧ ¬ (kw.data <:+: (r.memo.getD "").data) then none
          else some (projectRow thr r t)
        else none)
      = if tableQualifiesB lo hi kw r then (parseTs r.ts).map (projectRow thr r)
        else none := by
  unfold tableQualifiesB
  match hts : parseTs r.ts with
  | none => simp
  | some t =>
    dsimp only
    by_cases hrange : lo.key ≤ t.key ∧ t.key ≤ hi.key
    · rw [if_pos hrange]
      by_cases hkw : kw = ""
      · subst hkw
        simp [hrange]
      · have hkd : kw.data ≠ [] := by
          intro hc
          exact hkw (by cases kw; simp_all)
        match hm : r.memo with
        | none =>
          rw [if_pos ⟨hkw, by simp [List.infix_nil, hkd]⟩]
          simp [hrange, hkw]
        | some m =>
          by_cases hinf : kw.data <:+: m.data
          · rw [if_neg (by simp [hinf])]
            simp [hrange, hinf]
          · rw [if_pos ⟨hkw, by simpa using hinf⟩]
            simp [hrange, hkw, hinf]
    · rw [if_neg hrange]
      simp [hrange]

/-- C10: the time-window query keeps exactly the entries that qualify — the
timestamp parses and lies in the inclusive window, and either no keyword is
given or the keyword is a case-sensitive substring of the entry's memo — and
projects each kept entry to its table row; the Boolean qualification agrees
with the spec-level condition, under which an entry without a memo never
qualifies for a nonempty keyword and an unparseable timestamp never qualifies. -/
theorem C10_table_query (entries : List Entry) (lo hi : DateTime) (kw : String)
    (thr : Thresholds) :
    tableRows entries lo hi kw thr =
      (entries.filter (tableQualifiesB lo hi kw)).filterMap
        (fun r => (parseTs r.ts).map (projectRow thr r)) ∧
      (∀ r : Entry, tableQualifiesB lo hi kw r = true ↔
        ((∃ t, parseTs r.ts = some t ∧ lo.key ≤ t.key ∧ t.key ≤ hi.key) ∧
          (kw = "" ∨ ∃ m, r.memo = some m ∧ kw.data <:+: m.data))) := by
  constructor
  · rw [List.filterMap_filter]
    unfold tableRows
    apply List.filterMap_congr
    intro r hr
    exact tableRow_step lo hi kw thr r
  · intro r
    unfold tableQualifiesB
    match hts : parseTs r.ts with
    | none => simp
    | some t =>
      match hm : r.memo with
      | none => simp
      | some m => simp

/-- C10 witness: a concrete entry with a memo qualifies under a matching
keyword, shown through the qualification equivalence. -/
theorem C10_witness :
    tableQualifiesB ⟨2024, 1, 1, 0, 0, 0⟩ ⟨2024, 12, 31, 23, 59, 59⟩ "약"
        { ts := "2024-05-01T10:00:00", memo := some "복약 메모" } = true :=
  ((C10_table_query [] ⟨2024, 1, 1, 0, 0, 0⟩ ⟨2024, 12, 31, 23, 59, 59⟩ "약"
      defaultThresholds).2
    { ts := "2024-05-01T10:00:00", memo := some "복약 메모" }).mpr
    ⟨⟨⟨2024, 5, 1, 10, 0, 0⟩, by decide, by decide, by decide⟩,
      Or.inr ⟨"복약 메모", rfl, by decide⟩⟩

/-! ### Claim C7 -/

theorem splitSlash_ne_nil (l : List Char) : splitSlash l ≠ [] := by
  induction l with
  | nil => simp [splitSlash]
  | cons c cs ih =>
    unfold splitSlash
    split
    · simp
    · match h : splitSlash cs with
      | [] => exact absurd h ih
      | t :: ts => simp

theorem splitSlash_length (l : List Char) :
    (splitSlash l).length = l.count '/' + 1 := by
  induction l with
  | nil => simp [splitSlash]
  | cons c cs ih =>
    unfold splitSlash
    by_cases h : c = '/'
    · subst h
      simp [List.count_cons, ih]
    · rw [if_neg h]
      match hs : splitSlash cs with
      | [] => exact absurd hs (splitSlash_ne_nil cs)
      | t :: ts =>
        rw [hs] at ih
        simp_all [List.count_cons, h]

theorem splitSlash_no_slash (xs : List Char) (h : '/' ∉ xs) : splitSlash xs = [xs] := by
  induction xs with
  | nil => rfl
  | cons c cs ih =>
    simp only [List.mem_cons, not_or] at h
    unfold splitSlash
    rw [if_neg (fun hc => h.1 hc.symm), ih h.2]

theorem splitSlash_append (xs ys : List Char) (h : '/' ∉ xs) :
    splitSlash (xs ++ '/' :: ys) = xs :: splitSlash ys := by
  induction xs with
  | nil => simp [splitSlash]
  | cons c cs ih =>
    simp only [List.mem_cons, not_or] at h
    rw [List.cons_append, splitSlash, if_neg (fun hc => h.1 hc.symm), ih h.2]

theorem not_space_of_digit {c : Char} (h : isDig c = true) : isSpaceC c = false := by
  simp only [isDig, Bool.and_eq_true, decide_eq_true_eq] at h
  simp only [isSpaceC, Bool.or_eq_false_iff, beq_eq_false_iff_ne, ne_eq]
  refine ⟨⟨⟨⟨⟨?_, ?_⟩, ?_⟩, ?_⟩, ?_⟩, ?_⟩
  · intro heq; subst heq; exact absurd h (by decide)
  · intro heq; subst heq; exact absurd h (by decide)
  · intro heq; subst heq; exact absurd h (by decide)
  · intro heq; subst heq; exact absurd h (by decide)
  · omega
  · omega

theorem dropWhile_replicate_space (n : ℕ) (l : List Char) :
    (List.replicate n ' ' ++ l).dropWhile isSpaceC = l.dropWhile isSpaceC := by
  induction n with
  | zero => simp
  | succ k ih => simpa [List.replicate_succ, List.dropWhile_cons] using ih

theorem dropWhile_of_head_digit {l : List Char} (hne : l ≠ [])
    (hd : isDig (l.headI) = true) : l.dropWhile isSpaceC = l := by
  match l, hne with
  | c :: cs, _ =>
    simp only [List.headI] at hd
    rw [List.dropWhile_cons, not_space_of_digit hd]
    simp

theorem stripWsL_spaces (n m : ℕ) (ds : List Char) (hne : ds ≠ [])
    (hd : ∀ c ∈ ds, isDig c) :
    stripWsL (List.replicate n ' ' ++ ds ++ List.replicate m ' ') = ds := by
  unfold stripWsL
  rw [List.append_assoc, dropWhile_replicate_space]
  have h1 : (ds ++ List.replicate m ' ').dropWhile isSpaceC = ds ++ List.replicate m ' ' := by
    apply dropWhile_of_head_digit
    · simp [hne]
    · match ds, hne with
      | c :: cs, _ => exact hd c (by simp)
  rw [h1, List.reverse_append, List.reverse_replicate, dropWhile_replicate_space]
  have h2 : ds.reverse.dropWhile isSpaceC = ds.reverse := by
    apply dropWhile_of_head_digit
    · simp [hne]
    · match hr : ds.reverse, (by simp [hne] : ds.reverse ≠ []) with
      | c :: cs, _ =>
        apply hd
        have : c ∈ ds.reverse := by rw [hr]; simp
        simpa using this
  rw [h2, List.reverse_reverse]

theorem digTail_all_digits (l : List Char) (hd : ∀ c ∈ l, isDig c) :
    digTail l = true := by
  induction l with
  | nil => rfl
  | cons c cs ih =>
    unfold digTail
    have hc : isDig c = true := hd c (List.mem_cons_self c cs)
    have hu : c ≠ '_' := by
      intro hc'
      subst hc'
      exact absurd hc (by decide)
    rw [if_neg hu, hc]
    simpa using ih (fun x hx => hd x (List.mem_cons_of_mem c hx))

theorem digitsOk_all_digits (l : List Char) (hne : l ≠ []) (hd : ∀ c ∈ l, isDig c) :
    digitsOk l = true := by
  match l, hne with
  | c :: cs, _ =>
    have h1 : isDig c = true := hd c (List.mem_cons_self c cs)
    have h2 : digTail cs = true :=
      digTail_all_digits cs (fun x hx => hd x (List.mem_cons_of_mem c hx))
    simp [digitsOk, h1, h2]

theorem pyIntL_digits (n m : ℕ) (ds : List Char) (hne : ds ≠ [])
    (hd : ∀ c ∈ ds, isDig c) :
    pyIntL (List.replicate n ' ' ++ ds ++ List.replicate m ' ')
      = some ((natVal ds : ℤ)) := by
  unfold pyIntL
  rw [stripWsL_spaces n m ds hne hd]
  match ds, hne with
  | c :: cs, _ =>
    have hc : isDig c = true := hd c (List.mem_cons_self c cs)
    have hok : digitsOk (c :: cs) = true := digitsOk_all_digits (c :: cs) (by simp) hd
    split
    · rename_i heq
      injection heq with h1 h2
      subst h1
      exact absurd hc (by decide)
    · rename_i heq
      injection heq with h1 h2
      subst h1
      exact absurd hc (by decide)
    · rw [hok]
      simp

/-- C7: the composite parser splits on `/` and succeeds exactly when the split
yields two components and both parse as Python integers — there is no partial
result — any string whose slash count differs from one yields `(none, none)`,
and every `"S/D"` string whose components are (optionally
whitespace-surrounded) digit strings parses to the pair of their values. -/
theorem C7_parse_composite (s : String) :
    ((parse_bp s).1 = none ↔ (parse_bp s).2 = none) ∧
      ((∃ a b, parse_bp s = (some a, some b)) ∨ parse_bp s = (none, none)) ∧
      (s.data.count '/' ≠ 1 → parse_bp s = (none, none)) ∧
      (∀ xs ys : List Char, s.data = xs ++ '/' :: ys → '/' ∉ xs → '/' ∉ ys →
        parse_bp s =
          (match pyIntL (stripWsL xs), pyIntL (stripWsL ys) with
            | some a, some b => (some a, some b)
            | _, _ => (none, none))) ∧
      (∀ (n1 n2 n3 n4 : ℕ) (ds es : List Char), ds ≠ [] → es ≠ [] →
        (∀ c ∈ ds, isDig c) → (∀ c ∈ es, isDig c) →
        s.data = (List.replicate n1 ' ' ++ ds ++ List.replicate n2 ' ') ++ '/' ::
          (List.replicate n3 ' ' ++ es ++ List.replicate n4 ' ') →
        parse_bp s = (some ((natVal ds : ℤ)), some ((natVal es : ℤ)))) := by
  have hsplit4 : ∀ xs ys : List Char, s.data = xs ++ '/' :: ys → '/' ∉ xs → '/' ∉ ys →
      parse_bp s =
        (match pyIntL (stripWsL xs), pyIntL (stripWsL ys) with
          | some a, some b => (some a, some b)
          | _, _ => (none, none)) := by
    intro xs ys hdata hxs hys
    unfold parse_bp
    rw [hdata, splitSlash_append xs ys hxs, splitSlash_no_slash ys hys]
  refine ⟨?_, parse_bp_total_or_none s, ?_, hsplit4, ?_⟩
  · rcases parse_bp_total_or_none s with ⟨a, b, h⟩ | h <;> simp [h]
  · intro hcount
    unfold parse_bp
    match h : splitSlash s.data with
    | [] => rfl
    | [x] => rfl
    | [x, y] =>
      exfalso
      have := splitSlash_length s.data
      rw [h] at this
      simp at this
      omega
    | x :: y :: z :: rest => rfl
  · intro n1 n2 n3 n4 ds es hdne hene hdd hed hdata
    have hnoslash : ∀ (k : ℕ) (l : List Char), (∀ c ∈ l, isDig c) →
        '/' ∉ List.replicate k ' ' ++ l ++ List.replicate k ' ' := by
      intro k l hl hmem
      simp only [List.mem_append, List.mem_replicate] at hmem
      rcases hmem with (h | h) | h
      · exact absurd h.2 (by decide)
      · exact absurd (hl _ h) (by decide)
      · exact absurd h.2 (by decide)
    have hx : '/' ∉ List.replicate n1 ' ' ++ ds ++ List.replicate n2 ' ' := by
      intro hmem
      simp only [List.mem_append, List.mem_replicate] at hmem
      rcases hmem with (h | h) | h
      · exact absurd h.2 (by decide)
      · exact absurd (hdd _ h) (by decide)
      · exact absurd h.2 (by decide)
    have hy : '/' ∉ List.replicate n3 ' ' ++ es ++ List.replicate n4 ' ' := by
      intro hmem
      simp only [List.mem_append, List.mem_replicate] at hmem
      rcases hmem with (h | h) | h
      · exact absurd h.2 (by decide)
      · exact absurd (hed _ h) (by decide)
      · exact absurd h.2 (by decide)
    rw [hsplit4 _ _ hdata hx hy]
    have hstrip1 : stripWsL (List.replicate n1 ' ' ++ ds ++ List.replicate n2 ' ') = ds :=
      stripWsL_spaces n1 n2 ds hdne hdd
    have hstrip2 : stripWsL (List.replicate n3 ' ' ++ es ++ List.replicate n4 ' ') = es :=
      stripWsL_spaces n3 n4 es hene hed
    have hds : pyIntL ds = some ((natVal ds : ℤ)) := by
      have := pyIntL_digits 0 0 ds hdne hdd
      simpa using this
    have hes : pyIntL es = some ((natVal es : ℤ)) := by
      have := pyIntL_digits 0 0 es hene hed
      simpa using this
    rw [hstrip1, hstrip2, hds, hes]

/-- C7 witness: the whitespace-surrounded composite `" 120/80 "` parses to the
pair `(120, 80)`. -/
theorem C7_witness : parse_bp " 120/80 " = (some 120, some 80) := by
  have h := (C7_parse_composite " 120/80 ").2.2.2.2 1 0 0 1 ['1', '2', '0'] ['8', '0']
    (by decide) (by decide) (by decide) (by decide) (by decide)
  simpa using h

/-! ### Claim C8 -/

theorem buildEntry_weight_shape (ts : String) (vals : FormValues) (active : List String)
    (memo : String) :
    (buildEntry ts vals active memo).weight = none ∨
      ∃ w : ℚ, (buildEntry ts vals active memo).weight = some (.float w) := by
  simp only [buildEntry, keepNum]
  by_cases h : "weight" ∈ active
  · rw [if_pos h]
    cases vals.weight with
    | none => exact Or.inl rfl
    | some w => exact Or.inr ⟨w, rfl⟩
  · rw [if_neg h]
    exact Or.inl rfl

/-- C8: on the submit path, BMI derivation sets the entry's `bmi` field to
`round(weight / (height/100)^2, 2)` exactly when a strictly positive height is
configured, a weight is present, `bmi` is among the active metrics, and no
`bmi` was already supplied; in every other case (height absent, zero or
negative, weight absent, `bmi` inactive, or `bmi` already present) the entry
passes through unmodified, and the step never raises on a form-built entry. -/
theorem C8_bmi_derivation (ts : String) (vals : FormValues) (active : List String)
    (memo : String) (height_cm : Option ℚ) :
    (∃ e', deriveBmi (buildEntry ts vals active memo) height_cm active = .ok e') ∧
      (∀ (h w : ℚ) (e : Entry), e = buildEntry ts vals active memo →
        height_cm = some h → 0 < h → e.weight = some (.float w) → "bmi" ∈ active →
        e.bmi = none →
        deriveBmi e height_cm active =
          .ok { e with bmi := some (.float (round2 (w / (h / 100) ^ 2))) }) ∧
      (∀ (h : ℚ) (e : Entry), e = buildEntry ts vals active memo → height_cm = some h →
        h ≤ 0 → deriveBmi e height_cm active = .ok e) ∧
      (∀ e : Entry, e = buildEntry ts vals active memo → height_cm = none →
        deriveBmi e height_cm active = .ok e) ∧
      (∀ e : Entry, e = buildEntry ts vals active memo → e.weight = none →
        deriveBmi e height_cm active = .ok e) ∧
      (∀ e : Entry, e = buildEntry ts vals active memo → "bmi" ∉ active →
        deriveBmi e height_cm active = .ok e) ∧
      (∀ (e : Entry) (b : Value), e = buildEntry ts vals active memo →
        e.bmi = some b → deriveBmi e height_cm active = .ok e) := by
  refine ⟨?_, ?_, ?_, ?_, ?_, ?_, ?_⟩
  · rcases height_cm with _ | h
    · exact ⟨_, rfl⟩
    · rcases hw : (buildEntry ts vals active memo).weight with _ | wv
      · rcases hb : (buildEntry ts vals active memo).bmi with _ | bv
        · simp only [deriveBmi, hw, hb]
          exact ⟨_, rfl⟩
        · simp only [deriveBmi, hw, hb]
          exact ⟨_, rfl⟩
      · rcases hb : (buildEntry ts vals active memo).bmi with _ | bv
        · rcases buildEntry_weight_shape ts vals active memo with h0 | ⟨w, h0⟩
          · rw [h0] at hw
            exact absurd hw (by simp)
          · rw [h0] at hw
            injection hw with hw
            subst hw
            simp only [deriveBmi, h0, hb]
            split_ifs <;> exact ⟨_, rfl⟩
        · simp only [deriveBmi, hw, hb]
          exact ⟨_, rfl⟩
  · intro h w e he hh hpos hw hact hb
    subst hh
    simp only [deriveBmi, hw, hb]
    rw [if_pos ⟨by positivity, hact⟩, if_pos (by positivity)]
    rfl
  · intro h e he hh hle
    subst hh
    rcases hw : e.weight with _ | wv
    · simp only [deriveBmi, hw]
    · rcases hb : e.bmi with _ | bv
      · simp only [deriveBmi, hw, hb]
        by_cases hg : h ≠ 0 ∧ "bmi" ∈ active
        · rw [if_pos hg, if_neg ?_]
          rw [gt_iff_lt]
          intro hc
          rcases div_pos_iff.mp hc with ⟨h1, -⟩ | ⟨-, h2⟩
          · linarith
          · linarith
        · rw [if_neg hg]
      · simp only [deriveBmi, hw, hb]
  · intro e he hh
    subst hh
    simp only [deriveBmi]
  · intro e he hw
    rcases height_cm with _ | h
    · simp only [deriveBmi]
    · simp only [deriveBmi, hw]
  · intro e he hact
    rcases height_cm with _ | h
    · simp only [deriveBmi]
    · rcases hw : e.weight with _ | wv
      · simp only [deriveBmi, hw]
      · rcases hb : e.bmi with _ | bv
        · simp only [deriveBmi, hw, hb]
          rw [if_neg (by simp [hact])]
        · simp only [deriveBmi, hw, hb]
  · intro e b he hb
    rcases height_cm with _ | h
    · simp only [deriveBmi]
    · rcases hw : e.weight with _ | wv
      · simp only [deriveBmi, hw]
      · simp only [deriveBmi, hw, hb]

/-- C8 witness: height 170 and weight 68 with `bmi` active derive
`round(68 / 1.70^2, 2) = 23.53`. -/
theorem C8_witness :
    deriveBmi (buildEntry "2024-05-01T10:00:00" { weight := some 68 }
        ["weight", "bmi"] "") (some 170) ["weight", "bmi"] =
      .ok { buildEntry "2024-05-01T10:00:00" { weight := some 68 }
              ["weight", "bmi"] "" with
            bmi := some (.float (2353 / 100)) } := by
  have h := (C8_bmi_derivation "2024-05-01T10:00:00" { weight := some 68 }
      ["weight", "bmi"] "" (some 170)).2.1 170 68
      (buildEntry "2024-05-01T10:00:00" { weight := some 68 } ["weight", "bmi"] "")
      rfl rfl (by norm_num) (by decide) (by decide) (by decide)
  rw [h]
  have hfloor : ⌊(68 : ℚ) / ((170 : ℚ) / 100) ^ 2 * 100⌋ = 2352 := by
    rw [Int.floor_eq_iff]
    norm_num
  have : round2 ((68 : ℚ) / ((170 : ℚ) / 100) ^ 2) = 2353 / 100 := by
    unfold round2 rhe
    rw [hfloor]
    norm_num
  rw [this]

/-! ### Claim C5 -/

/-- C5 counterexample: a config file that parses to a well-formed mapping with
neither key is returned as-is by `load_json` — the missing `thresholds` part is
*not* replaced by its default — and the submit-time flag computation
`abnormal_flags(entry, CFG["thresholds"])` then raises a `KeyError`, so the
claim as stated fails. -/
theorem C5_counterexample :
    load_json (.parsed ({} : StoredConfig)) DEFAULT_CONFIG = ({} : StoredConfig) ∧
      (load_json (.parsed ({} : StoredConfig)) DEFAULT_CONFIG).thresholds = none ∧
      submitEval (load_json (.parsed ({} : StoredConfig)) DEFAULT_CONFIG)
          { ts := "2024-05-01T10:00:00" }
        = .error "KeyError: thresholds" :=
  ⟨rfl, rfl, rfl⟩

/-- C5 (amended): when the config file is absent or unreadable/unparseable,
loading falls back to the whole built-in default configuration and submit-time
abnormality evaluation succeeds; a file that parses to a well-formed mapping is
kept as-is — a missing `metrics` key falls back to the default metric list at
its read site, but a missing `thresholds` key is not defaulted, and
abnormality evaluation at submit then fails with a key lookup error. -/
theorem C5_config_fallback :
    (load_json (.missing : FileState StoredConfig) DEFAULT_CONFIG = DEFAULT_CONFIG) ∧
      (load_json (.unreadable : FileState StoredConfig) DEFAULT_CONFIG
        = DEFAULT_CONFIG) ∧
      (∀ row : Entry, submitEval (load_json (.missing : FileState StoredConfig)
          DEFAULT_CONFIG) row
        = .ok (abnormalFlagsList row defaultThresholds)) ∧
      (∀ row : Entry, submitEval (load_json (.unreadable : FileState StoredConfig)
          DEFAULT_CONFIG) row
        = .ok (abnormalFlagsList row defaultThresholds)) ∧
      (∀ c : StoredConfig, load_json (.parsed c) DEFAULT_CONFIG = c) ∧
      (∀ c : StoredConfig, c.metrics = none → activeMetricsOf c = defaultMetrics) ∧
      (∀ (c : StoredConfig) (row : Entry), c.thresholds = none →
        submitEval (load_json (.parsed c) DEFAULT_CONFIG) row
          = .error "KeyError: thresholds") ∧
      (∀ (c : StoredConfig) (thr : Thresholds) (row : Entry), c.thresholds = some thr →
        submitEval (load_json (.parsed c) DEFAULT_CONFIG) row
          = .ok (abnormalFlagsList row thr)) := by
  refine ⟨rfl, rfl, fun row => rfl, fun row => rfl, fun c => rfl, ?_, ?_, ?_⟩
  · intro c hm
    simp [activeMetricsOf, hm, defaultMetrics]
  · intro c row ht
    simp [submitEval, load_json, ht]
  · intro c thr row ht
    simp [submitEval, load_json, ht]

/-- C5 witness: with an absent config file, submit-time evaluation of a
concrete entry succeeds against the default thresholds. -/
theorem C5_witness :
    submitEval (load_json (.missing : FileState StoredConfig) DEFAULT_CONFIG)
        { ts := "2024-05-01T10:00:00", hr := some (.int 45) }
      = .ok [hrFlag] := by
  have h := C5_config_fallback.2.2.1 { ts := "2024-05-01T10:00:00", hr := some (.int 45) }
  have h2 : abnormalFlagsList { ts := "2024-05-01T10:00:00", hr := some (.int 45) }
      defaultThresholds = [hrFlag] := by decide
  rw [h, h2]

/-! ### Claim C2 -/

theorem migrateIds_length (supply : ℕ → String) (k : ℕ) (entries : List Entry) :
    (migrateIds supply k entries).length = entries.length := by
  induction entries generalizing k with
  | nil => rfl
  | cons e es ih =>
    unfold migrateIds
    cases e.id <;> simp [ih]

theorem migrateIds_all_some (supply : ℕ → String) (k : ℕ) (entries : List Entry) :
    ∀ x ∈ migrateIds supply k entries, x.id.isSome = true := by
  induction entries generalizing k with
  | nil => intro x hx; simp [migrateIds] at hx
  | cons e es ih =>
    intro x hx
    unfold migrateIds at hx
    cases h : e.id with
    | some i =>
      rw [h] at hx
      rcases List.mem_cons.mp hx with rfl | hx
      · simp [h]
      · exact ih k x hx
    | none =>
      rw [h] at hx
      rcases List.mem_cons.mp hx with rfl | hx
      · rfl
      · exact ih (k + 1) x hx

theorem migrateIds_mem_of_some (supply : ℕ → String) (k : ℕ) (entries : List Entry) :
    ∀ x ∈ entries, x.id.isSome = true → x ∈ migrateIds supply k entries := by
  induction entries generalizing k with
  | nil => intro x hx; simp at hx
  | cons e es ih =>
    intro x hx hsome
    unfold migrateIds
    rcases List.mem_cons.mp hx with rfl | hx
    · match h : x.id with
      | some i => exact List.mem_cons_self _ _
      | none => rw [h] at hsome; simp at hsome
    · cases h : e.id with
      | some i => exact List.mem_cons_of_mem _ (ih k x hx hsome)
      | none => exact List.mem_cons_of_mem _ (ih (k + 1) x hx hsome)

theorem migrateIds_noop (supply : ℕ → String) (k : ℕ) (entries : List Entry)
    (h : migrateCount entries = 0) : migrateIds supply k entries = entries := by
  induction entries generalizing k with
  | nil => rfl
  | cons e es ih =>
    unfold migrateCount at h
    rw [List.countP_cons] at h
    unfold migrateIds
    cases hid : e.id with
    | some i =>
      have hes : migrateCount es = 0 := by
        unfold migrateCount
        simp [hid] at h
        simpa using h
      rw [ih k hes]
    | none =>
      simp [hid] at h

theorem migrateIds_ids_sub (supply : ℕ → String) (k : ℕ) (entries : List Entry) :
    ∀ x ∈ (migrateIds supply k entries).filterMap Entry.id,
      x ∈ entries.filterMap Entry.id ∨ ∃ j, k ≤ j ∧ x = supply j := by
  induction entries generalizing k with
  | nil => intro x hx; simp [migrateIds] at hx
  | cons e es ih =>
    intro x hx
    unfold migrateIds at hx
    cases h : e.id with
    | some i =>
      rw [h] at hx
      rw [List.filterMap_cons, h] at hx
      rcases List.mem_cons.mp hx with rfl | hx
      · exact Or.inl (by rw [List.filterMap_cons, h]; exact List.mem_cons_self _ _)
      · rcases ih k x hx with hmem | hj
        · exact Or.inl (by rw [List.filterMap_cons, h]; exact List.mem_cons_of_mem _ hmem)
        · exact Or.inr hj
    | none =>
      rw [h] at hx
      rw [List.filterMap_cons] at hx
      simp only at hx
      rcases List.mem_cons.mp hx with rfl | hx
      · exact Or.inr ⟨k, le_refl k, rfl⟩
      · rcases ih (k + 1) x hx with hmem | ⟨j, hkj, hxj⟩
        · exact Or.inl (by rw [List.filterMap_cons, h]; exact hmem)
        · exact Or.inr ⟨j, by omega, hxj⟩

theorem migrateIds_nodup (supply : ℕ → String) (k : ℕ) (entries : List Entry)
    (hinj : Function.Injective supply)
    (hfresh : ∀ (j : ℕ) (x : Entry), x ∈ entries → x.id ≠ some (supply j))
    (hnd : (entries.filterMap Entry.id).Nodup) :
    ((migrateIds supply k entries).filterMap Entry.id).Nodup := by
  induction entries generalizing k with
  | nil => simp [migrateIds]
  | cons e es ih =>
    have hfresh' : ∀ (j : ℕ) (x : Entry), x ∈ es → x.id ≠ some (supply j) :=
      fun j x hx => hfresh j x (List.mem_cons_of_mem e hx)
    unfold migrateIds
    cases h : e.id with
    | some i =>
      rw [List.filterMap_cons, h] at hnd ⊢
      rcases List.nodup_cons.mp hnd with ⟨hni, hnd'⟩
      refine List.nodup_cons.mpr ⟨?_, ih k hfresh' hnd'⟩
      intro hmem
      rcases migrateIds_ids_sub supply k es i hmem with hold | ⟨j, -, hj⟩
      · exact hni hold
      · exact hfresh j e (List.mem_cons_self e es) (by rw [h, hj])
    | none =>
      rw [List.filterMap_cons, h] at hnd
      rw [List.filterMap_cons]
      simp only
      refine List.nodup_cons.mpr ⟨?_, ih (k + 1) hfresh' hnd⟩
      intro hmem
      rcases migrateIds_ids_sub supply (k + 1) es (supply k) hmem with hold | ⟨j, hkj, hj⟩
      · rcases List.mem_filterMap.mp hold with ⟨x, hx, hxid⟩
        exact hfresh k x (List.mem_cons_of_mem e hx) hxid
      · exact absurd (hinj hj) (by omega)

/-- C2 counterexample: the submit handler builds the entry with only its
timestamp and metric fields and appends it as-is — after the append the
persisted collection holds an entry with no id, so ids are *not* assigned by
the append before persisting. -/
theorem C2_counterexample :
    appendSorted [] (buildEntry "2024-05-01T10:00:00" {} defaultMetrics "")
        = [{ ts := "2024-05-01T10:00:00" }] ∧
      ({ ts := "2024-05-01T10:00:00" } : Entry).id = none := by
  constructor
  · decide
  · rfl

/-- C2 (amended): append inserts the submitted entry and re-sorts without ever
touching ids — the result is a permutation of the old entries plus the new one,
each element coming from the old collection or being the appended entry
unchanged — while the fresh unique ids are assigned only by the load-time
migration `migrate_ids` of the next script run, which gives every id-less entry
an id from the supply, leaves entries that already carry an id in the
collection, is a no-op when nothing is missing, and (for an injective supply of
identifiers fresh to the collection) keeps the stored ids pairwise distinct. -/
theorem C2_append_and_migrate (supply : ℕ → String) (k : ℕ) (entries : List Entry)
    (e0 : Entry) :
    (appendSorted entries e0).Perm (entries ++ [e0]) ∧
      (∀ x ∈ appendSorted entries e0, x ∈ entries ∨ x = e0) ∧
      (migrateIds supply k entries).length = entries.length ∧
      (∀ x ∈ migrateIds supply k entries, x.id.isSome = true) ∧
      (∀ x ∈ entries, x.id.isSome = true → x ∈ migrateIds supply k entries) ∧
      (migrateCount entries = 0 → migrateIds supply k entries = entries) ∧
      (Function.Injective supply →
        (∀ (j : ℕ) (x : Entry), x ∈ entries → x.id ≠ some (supply j)) →
        (entries.filterMap Entry.id).Nodup →
        ((migrateIds supply k entries).filterMap Entry.id).Nodup) := by
  have hperm : (appendSorted entries e0).Perm (entries ++ [e0]) :=
    List.perm_insertionSort tsGe (entries ++ [e0])
  refine ⟨hperm, ?_, migrateIds_length supply k entries,
    migrateIds_all_some supply k entries, migrateIds_mem_of_some supply k entries,
    migrateIds_noop supply k entries, migrateIds_nodup supply k entries⟩
  intro x hx
  have := hperm.mem_iff.mp hx
  rcases List.mem_append.mp this with h | h
  · exact Or.inl h
  · exact Or.inr (List.mem_singleton.mp h)

/-- C2 witness: on a concrete two-entry collection (one id-less, one with id
`"k"`) and the injective fresh supply `n ↦ "a"⋯"a"` (`n+1` letters), migration
yields pairwise-distinct ids, keeps the identified entry, and the no-op and
length facts hold on an already-migrated collection. -/
theorem C2_witness :
    ((migrateIds (fun n => String.mk (List.replicate (n + 1) 'a')) 0
        [{ ts := "t" }, { ts := "u", id := some "k" }]).filterMap Entry.id).Nodup ∧
      migrateIds (fun n => String.mk (List.replicate (n + 1) 'a')) 0
          [{ ts := "u", id := some "k" }]
        = [{ ts := "u", id := some "k" }] := by
  have hinj : Function.Injective (fun n => String.mk (List.replicate (n + 1) 'a')) := by
    intro a b hab
    have := congrArg (fun s : String => s.data.length) hab
    simpa using this
  have hfresh : ∀ (j : ℕ) (x : Entry),
      x ∈ [{ ts := "t" }, { ts := "u", id := some "k" }] →
      x.id ≠ some ((fun n => String.mk (List.replicate (n + 1) 'a')) j) := by
    intro j x hx hid
    rcases List.mem_cons.mp hx with rfl | hx
    · simp at hid
    · rcases List.mem_singleton.mp hx with rfl
      simp only [Option.some.injEq] at hid
      have hd := congrArg String.data hid
      have hlen := congrArg List.length hd
      simp at hlen
      subst hlen
      simp at hd
  refine ⟨(C2_append_and_migrate (fun n => String.mk (List.replicate (n + 1) 'a')) 0
      [{ ts := "t" }, { ts := "u", id := some "k" }]
      { ts := "t" }).2.2.2.2.2.2 hinj hfresh (by decide), ?_⟩
  exact (C2_append_and_migrate (fun n => String.mk (List.replicate (n + 1) 'a')) 0
      [{ ts := "u", id := some "k" }] { ts := "t" }).2.2.2.2.2.1 (by decide)

/-! ### Claim C6: the string sort orders parseable timestamps chronologically -/

theorem daysInMonth_le (y mo : ℕ) : daysInMonth y mo ≤ 31 := by
  unfold daysInMonth
  split_ifs <;> simp

theorem parseTsL_inv {l : List Char} {t : DateTime} (h : parseTsL l = some t) :
    ∃ y1 y2 y3 y4 m1 m2 d1 d2 e1 e2 n1 n2 s1 s2 : Char,
      l = [y1, y2, y3, y4, '-', m1, m2, '-', d1, d2, 'T', e1, e2, ':', n1, n2, ':',
        s1, s2] ∧
      (isDig y1 ∧ isDig y2 ∧ isDig y3 ∧ isDig y4 ∧ isDig m1 ∧ isDig m2 ∧ isDig d1 ∧
        isDig d2 ∧ isDig e1 ∧ isDig e2 ∧ isDig n1 ∧ isDig n2 ∧ isDig s1 ∧ isDig s2) ∧
      t = ⟨dig4 y1 y2 y3 y4, dig2 m1 m2, dig2 d1 d2, dig2 e1 e2, dig2 n1 n2,
        dig2 s1 s2⟩ ∧
      1 ≤ dig4 y1 y2 y3 y4 ∧ 1 ≤ dig2 m1 m2 ∧ dig2 m1 m2 ≤ 12 ∧ 1 ≤ dig2 d1 d2 ∧
        dig2 d1 d2 ≤ 31 ∧ dig2 e1 e2 ≤ 23 ∧ dig2 n1 n2 ≤ 59 ∧ dig2 s1 s2 ≤ 59 := by
  unfold parseTsL at h
  split at h
  case h_2 => exact absurd h (by simp)
  case h_1 y1 y2 y3 y4 c1 m1 m2 c2 d1 d2 c3 e1 e2 c4 n1 n2 c5 s1 s2 =>
    split at h
    case isFalse => exact absurd h (by simp)
    case isTrue hd =>
      split at h
      case isFalse => exact absurd h (by simp)
      case isTrue hr =>
        injection h with h
        subst h
        simp only [Bool.and_eq_true, beq_iff_eq, decide_eq_true_eq] at hd hr
        obtain ⟨⟨⟨⟨⟨⟨⟨⟨⟨⟨⟨⟨⟨⟨⟨⟨⟨⟨hy1, hy2⟩, hy3⟩, hy4⟩, hc1⟩, hm1⟩, hm2⟩, hc2⟩,
          hd1⟩, hd2⟩, hc3⟩, he1⟩, he2⟩, hc4⟩, hn1⟩, hn2⟩, hc5⟩, hs1⟩, hs2⟩ := hd
        subst hc1 hc2 hc3 hc4 hc5
        obtain ⟨⟨⟨⟨⟨⟨⟨hr1, hr2⟩, hr3⟩, hr4⟩, hr5⟩, hr6⟩, hr7⟩, hr8⟩ := hr
        have hdm := daysInMonth_le (dig4 y1 y2 y3 y4) (dig2 m1 m2)
        refine ⟨y1, y2, y3, y4, m1, m2, d1, d2, e1, e2, n1, n2, s1, s2, rfl,
          ⟨hy1, hy2, hy3, hy4, hm1, hm2, hd1, hd2, he1, he2, hn1, hn2, hs1, hs2⟩,
          rfl, ?_, ?_, ?_, ?_, ?_, ?_, ?_, ?_⟩ <;> omega

theorem list_lt_iff_lex (l1 l2 : List Char) :
    l1 < l2 ↔ List.Lex (· < ·) l1 l2 := Iff.rfl

theorem cons_lt_cons_iff_c (a b : Char) (l1 l2 : List Char) :
    (a :: l1) < (b :: l2) ↔ a < b ∨ (a = b ∧ l1 < l2) := by
  rw [list_lt_iff_lex, list_lt_iff_lex]
  constructor
  · intro h
    cases h with
    | cons h => exact Or.inr ⟨rfl, h⟩
    | rel h => exact Or.inl h
  · rintro (h | ⟨rfl, h⟩)
    · exact List.Lex.rel h
    · exact List.Lex.cons h

theorem nil_lt_nil_iff_c : (([] : List Char) < []) ↔ False := by
  rw [list_lt_iff_lex]
  simp only [iff_false]
  exact List.Lex.not_nil_right _ _

theorem char_eq_iff (a b : Char) : a = b ↔ a.toNat = b.toNat := by
  constructor
  · intro h; rw [h]
  · intro h; exact Char.eq_of_val_eq (UInt32.ext h)

theorem char_lt_iff (a b : Char) : a < b ↔ a.toNat < b.toNat := Iff.rfl

theorem key_mk (a b c d e f : ℕ) :
    DateTime.key ⟨a, b, c, d, e, f⟩
      = ((((a * 13 + b) * 32 + c) * 24 + d) * 60 + e) * 60 + f :=
  rfl

theorem head_digit (x x' : ℕ) (hx : 48 ≤ x ∧ x ≤ 57) (hx' : 48 ≤ x' ∧ x' ≤ 57)
    (R : Prop) :
    (x < x' ∨ (x = x' ∧ R)) ↔ ((x - 48) < (x' - 48) ∨ ((x - 48) = (x' - 48) ∧ R)) := by
  have hlt : x < x' ↔ x - 48 < x' - 48 := by omega
  have heq : x = x' ↔ x - 48 = x' - 48 := by omega
  tauto

theorem glue_digit (v v' x x' : ℕ) (hx : 48 ≤ x ∧ x ≤ 57) (hx' : 48 ≤ x' ∧ x' ≤ 57)
    (R : Prop) :
    (v < v' ∨ (v = v' ∧ (x < x' ∨ (x = x' ∧ R)))) ↔
      (v * 10 + (x - 48) < v' * 10 + (x' - 48) ∨
        (v * 10 + (x - 48) = v' * 10 + (x' - 48) ∧ R)) := by
  have hlt : (v * 10 + (x - 48) < v' * 10 + (x' - 48)) ↔
      (v < v' ∨ (v = v' ∧ x < x')) := by
    omega
  have heq : (v * 10 + (x - 48) = v' * 10 + (x' - 48)) ↔ (v = v' ∧ x = x') := by omega
  tauto

theorem lex6_iff_key {Y MO D H MI S Y' MO' D' H' MI' S' : ℕ}
    (hmo : MO ≤ 12) (hmo' : MO' ≤ 12) (hd : D ≤ 31) (hd' : D' ≤ 31)
    (hh : H ≤ 23) (hh' : H' ≤ 23) (hmi : MI ≤ 59) (hmi' : MI' ≤ 59)
    (hs : S ≤ 59) (hs' : S' ≤ 59) :
    (Y < Y' ∨ (Y = Y' ∧ (MO < MO' ∨ (MO = MO' ∧ (D < D' ∨ (D = D' ∧ (H < H' ∨ (H = H' ∧
        (MI < MI' ∨ (MI = MI' ∧ S < S')))))))))) ↔
      ((((Y * 13 + MO) * 32 + D) * 24 + H) * 60 + MI) * 60 + S <
        ((((Y' * 13 + MO') * 32 + D') * 24 + H') * 60 + MI') * 60 + S' := by
  omega

theorem parseTsL_lt_iff {l1 l2 : List Char} {t1 t2 : DateTime}
    (h1 : parseTsL l1 = some t1) (h2 : parseTsL l2 = some t2) :
    l1 < l2 ↔ t1.key < t2.key := by
  obtain ⟨y1, y2, y3, y4, m1, m2, d1, d2, e1, e2, n1, n2, s1, s2, rfl, hdig1, rfl,
    hb1⟩ := parseTsL_inv h1
  obtain ⟨z1, z2, z3, z4, q1, q2, f1, f2, g1, g2, p1, p2, w1, w2, rfl, hdig2, rfl,
    hb2⟩ := parseTsL_inv h2
  obtain ⟨hy1, hy2, hy3, hy4, hm1, hm2, hd1, hd2, he1, he2, hn1, hn2, hs1, hs2⟩ := hdig1
  obtain ⟨hz1, hz2, hz3, hz4, hq1, hq2, hf1, hf2, hg1, hg2, hp1, hp2, hw1, hw2⟩ := hdig2
  simp only [isDig, Bool.and_eq_true, decide_eq_true_eq] at hy1 hy2 hy3 hy4 hm1 hm2 hd1 hd2 he1 he2 hn1 hn2 hs1 hs2 hz1 hz2 hz3 hz4 hq1 hq2 hf1 hf2 hg1 hg2 hp1 hp2 hw1 hw2
  simp only [dig4, dig2, d2n] at hb1 hb2
  simp only [key_mk, dig4, dig2, d2n]
  simp only [cons_lt_cons_iff_c, nil_lt_nil_iff_c, char_lt_iff, char_eq_iff,
    lt_self_iff_false, eq_self_iff_true, false_or, true_and]
  rw [head_digit y1.toNat z1.toNat hy1 hz1,
    glue_digit _ _ y2.toNat z2.toNat hy2 hz2,
    glue_digit _ _ y3.toNat z3.toNat hy3 hz3,
    glue_digit _ _ y4.toNat z4.toNat hy4 hz4,
    head_digit m1.toNat q1.toNat hm1 hq1,
    glue_digit _ _ m2.toNat q2.toNat hm2 hq2,
    head_digit d1.toNat f1.toNat hd1 hf1,
    glue_digit _ _ d2.toNat f2.toNat hd2 hf2,
    head_digit e1.toNat g1.toNat he1 hg1,
    glue_digit _ _ e2.toNat g2.toNat he2 hg2,
    head_digit n1.toNat p1.toNat hn1 hp1,
    glue_digit _ _ n2.toNat p2.toNat hn2 hp2,
    head_digit s1.toNat w1.toNat hs1 hw1,
    glue_digit _ _ s2.toNat w2.toNat hs2 hw2]
  simp only [and_false, or_false]
  exact lex6_iff_key hb1.2.2.1 hb2.2.2.1 hb1.2.2.2.2.1 hb2.2.2.2.2.1
    hb1.2.2.2.2.2.1 hb2.2.2.2.2.2.1 hb1.2.2.2.2.2.2.1 hb2.2.2.2.2.2.2.1
    hb1.2.2.2.2.2.2.2 hb2.2.2.2.2.2.2.2

theorem parseTs_lt_iff {a b : String} {ta tb : DateTime}
    (ha : parseTs a = some ta) (hb : parseTs b = some tb) :
    a < b ↔ ta.key < tb.key := by
  have hdata : a < b ↔ a.data < b.data := String.lt_iff_toList_lt
  rw [hdata]
  exact parseTsL_lt_iff ha hb

/-- The descending-timestamp relation the claim speaks about: whenever both
timestamps parse, the later entry's key is at most the earlier one's. An entry
with an unparseable timestamp imposes no constraint. -/
def descTs (a b : Entry) : Prop :=
  ∀ ta tb : DateTime, parseTs a.ts = some ta → parseTs b.ts = some tb →
    tb.key ≤ ta.key

theorem tsGe_imp_descTs {a b : Entry} (h : tsGe a b) : descTs a b := by
  intro ta tb ha hb
  by_contra hlt
  push_neg at hlt
  have hab : a.ts < b.ts := (parseTs_lt_iff ha hb).mpr hlt
  exact absurd h (not_le.mpr hab)

theorem appendSorted_pairwise (entries : List Entry) (e : Entry) :
    (appendSorted entries e).Pairwise tsGe :=
  List.sorted_insertionSort tsGe (entries ++ [e])

theorem foldl_appendSorted_perm (news : List Entry) :
    ∀ acc : List Entry, (news.foldl appendSorted acc).Perm (acc ++ news) := by
  induction news with
  | nil => intro acc; simp
  | cons n ns ih =>
    intro acc
    have h1 : (appendSorted acc n).Perm (acc ++ [n]) :=
      List.perm_insertionSort tsGe (acc ++ [n])
    have h2 := ih (appendSorted acc n)
    have h3 : (appendSorted acc n ++ ns).Perm ((acc ++ [n]) ++ ns) :=
      h1.append_right ns
    have h4 := h2.trans h3
    simpa [List.append_assoc] using h4

theorem foldl_appendSorted_pairwise (news : List Entry) :
    ∀ acc : List Entry, acc.Pairwise tsGe →
      (news.foldl appendSorted acc).Pairwise tsGe := by
  induction news with
  | nil => intro acc h; exact h
  | cons n ns ih =>
    intro acc h
    exact ih (appendSorted acc n) (appendSorted_pairwise acc n)

/-- C6: after every append the persisted collection is a permutation of the
previous entries plus the appended one, pairwise sorted descending by the raw
timestamp string, and therefore — through the lexicographic/chronological
correspondence on the canonical format — pairwise descending by parsed
timestamp; consequently appending N entries into an empty store in any order
yields exactly those N entries in descending-timestamp order. -/
theorem C6_append_order (entries : List Entry) (e : Entry) (news : List Entry) :
    (appendSorted entries e).Perm (entries ++ [e]) ∧
      (appendSorted entries e).Pairwise tsGe ∧
      (appendSorted entries e).Pairwise descTs ∧
      (news.foldl appendSorted []).Perm news ∧
      (news.foldl appendSorted []).Pairwise descTs := by
  refine ⟨List.perm_insertionSort tsGe (entries ++ [e]),
    appendSorted_pairwise entries e,
    (appendSorted_pairwise entries e).imp tsGe_imp_descTs,
    by simpa using foldl_appendSorted_perm news [],
    (foldl_appendSorted_pairwise news [] (List.Pairwise.nil)).imp tsGe_imp_descTs⟩

/-- C6 witness: appending a single entry to the empty store yields exactly that
entry, and the permutation and ordering conclusions hold there. -/
theorem C6_witness :
    appendSorted [] { ts := "2024-05-01T10:00:00" : Entry }
        = [{ ts := "2024-05-01T10:00:00" }] ∧
      (appendSorted [] { ts := "2024-05-01T10:00:00" : Entry }).Perm
        ([] ++ [{ ts := "2024-05-01T10:00:00" }]) ∧
      (appendSorted [] { ts := "2024-05-01T10:00:00" : Entry }).Pairwise descTs :=
  ⟨rfl, (C6_append_order [] { ts := "2024-05-01T10:00:00" } []).1,
    (C6_append_order [] { ts := "2024-05-01T10:00:00" } []).2.2.1⟩

example : parse_bp "120/80" = (some 120, some 80) := by decide

example : parse_bp " 190 / 70 " = (some 190, some 70) := by decide

example : parse_bp "12080" = (none, none) := by decide

example : parse_bp "120/80/60" = (none, none) := by decide

example : parse_bp "" = (none, none) := by decide

example : abnormalFlagsList { ts := "t", bp := some (.str "190/70") } defaultThresholds
    = [bpVeryFlag] := by decide

example : abnormalFlagsList { ts := "t", bp := some (.str "0/200") } defaultThresholds
    = [] := by decide

example : abnormalFlagsList { ts := "t", hr := some (.int 45) } defaultThresholds
    = [hrFlag] := by decide

example : abnormalFlagsList { ts := "t", hr := some (.int 80) } defaultThresholds
    = [] := by decide

example : parseTs "2024-05-01T10:00:00" = some ⟨2024, 5, 1, 10, 0, 0⟩ := by decide

example : parseTs "2024-02-30T10:00:00" = none := by decide

example : parseTs "not a date" = none := by decide
